import Mathlib

/-!
Verification of the grammar-snippet tokenizer, target registrar and
legacy-format adapter of `Doc/tools/extensions/grammar_snippet.py`.

The tokenizer is `GrammarSnippetBase.make_production` driven by the verbose
regular expression `GrammarSnippetBase.grammar_re`:

    (?P<rule_name>^[a-zA-Z0-9_]+)(?=:)   identifier at start of line, before a colon
  | (?P<rule_ref>`[^\s`]+`)              identifier in backquotes
  | (?P<single_quoted>'[^']*')           string in single quotes
  | (?P<double_quoted>"[^"]*")           string in double quotes

We embed the scan over a line as a function on `List Char`.  `re.finditer`
tries the four alternatives in order at each position, emits non-overlapping
matches left to right, and advances one character when no alternative
matches.  None of the alternatives can match the empty string, and without
`re.MULTILINE` the `^` anchor succeeds only at position 0, which we model
with the `atStart` flag.

The model restricts the `\s` character class to ASCII whitespace
(space, tab, newline, carriage return, vertical tab, form feed); the
documentation sources scanned by this directive are ASCII.
-/

/-- ASCII approximation of Python's `\s` / `str.strip` whitespace class. -/
def pyIsSpace (c : Char) : Bool :=
  c = ' ' || c = '\t' || c = '\n' || c = '\r' || c = '\x0b' || c = '\x0c'

/-- The `[a-zA-Z0-9_]` character class of the `rule_name` alternative. -/
def isWordChar (c : Char) : Bool :=
  ('a' ≤ c && c ≤ 'z') || ('A' ≤ c && c ≤ 'Z') || ('0' ≤ c && c ≤ '9') || c = '_'

/--
The four named groups of one `grammar_re` match, as in `match.groupdict()`:
each field is `some` captured text exactly when the corresponding named group
participated in the match (the Python code filters out `None` entries; here
`none` plays that role).
-/
structure GroupDict where
  rule_name : Option (List Char)
  rule_ref : Option (List Char)
  single_quoted : Option (List Char)
  double_quoted : Option (List Char)
deriving DecidableEq, Repr

/--
One node appended to the output `literal_block` by `make_production`:
`nodes.Text` for the text between matches and for the final tail,
`make_name_target`'s `literal_strong` for a rule definition, the nodes from
`token_xrefs` for a backquoted reference (we keep the raw matched text that
is passed to `token_xrefs`), and `snippet_string_node` for a quoted string
(carrying the text the code passes to it, i.e. the full matched span,
quotes included).
-/
inductive Token where
  | plainText (text : List Char)
  | ruleDefinition (name : List Char)
  | ruleReference (text : List Char)
  | stringLiteral (text : List Char)
deriving DecidableEq, Repr

/-- The characters of the source line consumed for (or emitted as) a token.
For a rule definition the colon is only a lookahead and is not consumed; for
references and string literals the delimiters are part of the matched span. -/
def tokenSpan : Token → List Char
  | .plainText t => t
  | .ruleDefinition n => n
  | .ruleReference t => t
  | .stringLiteral t => t

/-- Concatenation of the spans of a token sequence. -/
def concatSpans (ts : List Token) : List Char :=
  (ts.map tokenSpan).flatten

/-- Errors that the grammar-snippet pipeline can raise. -/
inductive PipelineError where
  /-- `KeyError` from `options['group']` when the option is absent. -/
  | keyErrorGroup
  /-- `ValueError('unhandled match')` from the `case _` branch. -/
  | unhandledMatch
  /-- `ValueError` from `line.index(':')` on a line with no colon, or from
  `max()` over an empty sequence in `CompatProductionList.run`. -/
  | valueError
  /-- `IndexError` from `lines[0]` when the argument has no lines. -/
  | indexError
deriving DecidableEq, Repr

/--
`(?P<rule_name>^[a-zA-Z0-9_]+)(?=:)` tried at the current position: succeeds
only at the start of the line (`^`, no MULTILINE), consuming a maximal
nonempty run of word characters that is immediately followed by a colon
(the lookahead consumes nothing).  Returns the captured run and the number
of characters consumed.
-/
def tryRuleName (atStart : Bool) (s : List Char) : Option (List Char × Nat) :=
  if atStart then
    let run := s.takeWhile isWordChar
    if run.isEmpty then none
    else if (s.drop run.length).head? = some ':' then some (run, run.length)
    else none
  else none

/--
``(?P<rule_ref>`[^\s`]+`)`` tried at the current position: a backquote, a
nonempty run of characters that are neither whitespace nor backquotes, and a
closing backquote.  The captured text is the full span including both
backquotes.
-/
def tryRuleRef (s : List Char) : Option (List Char × Nat) :=
  match s with
  | [] => none
  | c :: rest =>
    if c = '\x60' then
      let run := rest.takeWhile (fun x => !pyIsSpace x && x != '\x60')
      if run.isEmpty then none
      else if (rest.drop run.length).head? = some '\x60' then
        some ('\x60' :: (run ++ ['\x60']), run.length + 2)
      else none
    else none

/--
`(?P<single_quoted>'[^']*')` (and its double-quote twin) tried at the current
position: an opening quote `q`, a possibly empty run of non-`q` characters,
and a closing `q`.  The captured text is the full span including both quotes;
there is no escape handling, so the run can never contain `q`.
-/
def tryQuoted (q : Char) (s : List Char) : Option (List Char × Nat) :=
  match s with
  | [] => none
  | c :: rest =>
    if c = q then
      let run := rest.takeWhile (fun x => x != q)
      if (rest.drop run.length).head? = some q then
        some (q :: (run ++ [q]), run.length + 2)
      else none
    else none

/--
One attempt of `grammar_re` at the current position: the four alternatives
are tried in the order they appear in the pattern, and the successful one
sets exactly its own named group.  Returns the group dictionary and the
length of the match.
-/
def matchAt (atStart : Bool) (s : List Char) : Option (GroupDict × Nat) :=
  match tryRuleName atStart s with
  | some (run, n) => some (⟨some run, none, none, none⟩, n)
  | none =>
    match tryRuleRef s with
    | some (sp, n) => some (⟨none, some sp, none, none⟩, n)
    | none =>
      match tryQuoted '\x27' s with
      | some (sp, n) => some (⟨none, none, some sp, none⟩, n)
      | none =>
        match tryQuoted '\x22' s with
        | some (sp, n) => some (⟨none, none, none, some sp⟩, n)
        | none => none

/--
The `match group_dict` dispatch of `make_production`: the dict patterns
`case ⟨rule_name⟩`, `case ⟨rule_ref⟩`, `case ⟨single_quoted⟩ | ⟨double_quoted⟩`
are tried in order (a dict pattern matches when its key is present), and the
final `case _` raises `ValueError('unhandled match')`.
-/
def classify (gd : GroupDict) : Except PipelineError Token :=
  match gd.rule_name with
  | some name => .ok (.ruleDefinition name)
  | none =>
    match gd.rule_ref with
    | some t => .ok (.ruleReference t)
    | none =>
      match gd.single_quoted with
      | some t => .ok (.stringLiteral t)
      | none =>
        match gd.double_quoted with
        | some t => .ok (.stringLiteral t)
        | none => .error .unhandledMatch

/--
The `finditer` loop of `make_production` over the remaining suffix `s` of the
line.  `gapRev` holds (reversed) the characters accumulated since `last_pos`;
when a match is found, a nonempty gap is emitted as a `Text` node before the
match's token, and at the end of the line the remaining tail plus `'\n'` is
always emitted as a final `Text` node.  `fuel` only forces termination: every
step consumes at least one character, so `fuel > s.length` never runs out.
-/
def scanAux (fuel : Nat) (atStart : Bool) (s : List Char) (gapRev : List Char) :
    Except PipelineError (List Token) :=
  match fuel with
  | 0 => .ok [.plainText (gapRev.reverse ++ ['\n'])]
  | fuel + 1 =>
    match s with
    | [] => .ok [.plainText (gapRev.reverse ++ ['\n'])]
    | c :: rest =>
      match matchAt atStart s with
      | none => scanAux fuel false rest (c :: gapRev)
      | some (gd, n) =>
        match classify gd with
        | .error e => .error e
        | .ok tok =>
          match scanAux fuel false (s.drop n) [] with
          | .error e => .error e
          | .ok ts =>
            if gapRev = [] then .ok (tok :: ts)
            else .ok (.plainText gapRev.reverse :: tok :: ts)

/-- `make_production` restricted to its token output: scan one line with
`grammar_re.finditer` and classify every match, or fail on an unhandled one. -/
def tokenizeE (line : List Char) : Except PipelineError (List Token) :=
  scanAux (line.length + 1) true line []



/--
One record of the target registry.  Modelled from the spec: the registry the
code writes through (`self.state.document`, `make_id`, and the standard
domain's `note_object`, none of which are in this repository's sources) is
described in §3/§4.2 of the specification as a mapping keyed by
`(group, name)` holding a record `{group, name, id}`.
-/
structure TargetEntry where
  group : List Char
  name : List Char
  id : List Char
deriving DecidableEq, Repr

/-- Modelled from the spec: the registry keyed by `(group, name)`. -/
abbrev Registry := List ((List Char × List Char) × TargetEntry)

/--
Modelled from the spec: Sphinx's `make_id` is not part of this repository;
§4.2 specifies a deterministic id of the form `"<fixed-prefix>-<group>-<name>"`,
and `make_name_target` uses the fixed prefix `grammar-token-` followed by the
production group.
-/
def makeId (group name : List Char) : List Char :=
  "grammar-token-".data ++ group ++ ('-' :: name)

/--
Modelled from the spec: `register(group, name) -> id` (§4.2).  Computes the
deterministic id, stores the `(group, name) → TargetEntry` mapping with
last-write-wins overwrite semantics, and returns the id.
-/
def register (reg : Registry) (g n : List Char) : Registry × List Char :=
  (((g, n), ⟨g, n, makeId g n⟩) :: reg.filter (fun e => decide (e.1 ≠ (g, n))),
   makeId g n)

/--
The registration side effect of one tokenized line: `make_production` calls
`make_name_target` for every `rule_name` match, in scan order.  Registration
never feeds back into the scan, so folding `register` over the emitted rule
definitions yields the same registry as the interleaved calls.
-/
def registerTokens (g : List Char) (reg : Registry) (ts : List Token) : Registry :=
  ts.foldl (fun r t =>
    match t with
    | .ruleDefinition n => (register r g n).1
    | _ => r) reg

/-- The `for line in content` loop of `make_grammar_snippet`: tokenize each
line in order, registering its rule definitions before the next line. -/
def snippetLines (g : List Char) (reg : Registry) :
    List (List Char) → Except PipelineError (Registry × List (List Token))
  | [] => .ok (reg, [])
  | line :: rest =>
    match tokenizeE line with
    | .error e => .error e
    | .ok ts =>
      match snippetLines g (registerTokens g reg ts) rest with
      | .error e => .error e
      | .ok (r, tss) => .ok (r, ts :: tss)

/--
`GrammarSnippetBase.make_grammar_snippet`, at the token level: read
`options['group']` (a `KeyError` if the option is absent — `none` here),
then tokenize and register every content line.
-/
def makeGrammarSnippet (reg : Registry) (groupOpt : Option (List Char))
    (content : List (List Char)) : Except PipelineError (Registry × List (List Token)) :=
  match groupOpt with
  | none => .error .keyErrorGroup
  | some g => snippetLines g reg content

/--
Python's `str.splitlines` restricted to `'\n'` separators (the directive
argument block uses plain newlines): `""` gives `[]`, a trailing newline does
not produce a final empty line.
-/
def splitlines (s : List Char) : List (List Char) :=
  go s []
where
  go : List Char → List Char → List (List Char)
    | [], cur => if cur.isEmpty then [] else [cur.reverse]
    | c :: rest, cur =>
      if c = '\n' then cur.reverse :: go rest [] else go rest (c :: cur)

/-- Python's `str.strip()` under the ASCII whitespace class `pyIsSpace`. -/
def pyStrip (s : List Char) : List Char :=
  ((s.dropWhile pyIsSpace).reverse.dropWhile pyIsSpace).reverse

/-- `line.index(':')`, as an `Option`: the index of the first colon. -/
def colonIndex (l : List Char) : Option Nat :=
  l.findIdx? (fun c => c = ':')

/--
`max(line.index(':') for line in lines)`: `none` when the sequence is empty
(`ValueError` from `max`) or when some line has no colon (`ValueError` from
`index`); both surface as the same exception class in Python.
-/
def maxColonIndex : List (List Char) → Option Nat
  | [] => none
  | [l] => colonIndex l
  | l :: ls =>
    match colonIndex l, maxColonIndex ls with
    | some i, some m => some (Nat.max i m)
    | _, _ => none

/-- `f'{s:<{n}}'`: pad `s` on the right with spaces to width `n`. -/
def ljust (n : Nat) (s : List Char) : List Char :=
  s ++ List.replicate (n - s.length) ' '

/--
The body of the `for line in lines[1:]` loop of `CompatProductionList.run`:
`rule_name, _colon, text = line.partition(':')`, strip the name, keep a
trailing colon only for nonempty names, and left-justify the name part to
the alignment column before appending the definition text.
-/
def normalizeLine (alignColumn : Nat) (line : List Char) : List Char :=
  let ruleName := pyStrip (line.takeWhile (fun c => c != ':'))
  let text := (line.dropWhile (fun c => c != ':')).drop 1
  let namePart := if ruleName.isEmpty then [] else ruleName ++ [':']
  ljust alignColumn namePart ++ text

/--
`CompatProductionList.run`: split the single argument into lines, take line 0
(stripped) as the production group, compute the alignment column as one plus
the maximum first-colon index over the remaining lines (a `ValueError`
escapes before anything is tokenized or registered when a line has no colon
or there are no lines after the header), normalize each remaining line, and
delegate to `make_grammar_snippet`.
-/
def compatRun (reg : Registry) (arg : List Char) :
    Except PipelineError (Registry × List (List Token)) :=
  match splitlines arg with
  | [] => .error .indexError
  | l0 :: rest =>
    let g := pyStrip l0
    match maxColonIndex rest with
    | none => .error .valueError
    | some m =>
      makeGrammarSnippet reg (some g) (rest.map (normalizeLine (m + 1)))

/--
The registry as seen by the caller after `CompatProductionList.run`: when the
adapter raises, the exception propagates before any registration, so the
registry is the one the caller already had.
-/
def registryAfterCompat (reg : Registry) (arg : List Char) : Registry :=
  match compatRun reg arg with
  | .ok (r, _) => r
  | .error _ => reg



/-- The shape of every string-literal payload the tokenizer can emit: an
opening quote, a run that never contains that quote, and the closing quote. -/
def quotedShape (p : List Char) : Prop :=
  ∃ q mid, (q = '\x27' ∨ q = '\x22') ∧ p = q :: (mid ++ [q]) ∧ q ∉ mid

lemma takeWhile_take {α} (p : α → Bool) :
    ∀ l : List α, l.take (l.takeWhile p).length = l.takeWhile p
  | [] => rfl
  | a :: l => by
    by_cases h : p a
    · simp [List.takeWhile_cons, h, takeWhile_take p l]
    · simp [List.takeWhile_cons, h]

lemma takeWhile_drop {α} (p : α → Bool) :
    ∀ l : List α, l.drop (l.takeWhile p).length = l.dropWhile p
  | [] => rfl
  | a :: l => by
    by_cases h : p a
    · simp [List.takeWhile_cons, List.dropWhile_cons, h, takeWhile_drop p l]
    · simp [List.takeWhile_cons, List.dropWhile_cons, h]

lemma mem_takeWhile {α} {p : α → Bool} :
    ∀ {l : List α} {x : α}, x ∈ l.takeWhile p → p x = true
  | a :: l, x, h => by
    by_cases hp : p a
    · rw [List.takeWhile_cons_of_pos hp] at h
      rcases List.mem_cons.mp h with rfl | h'
      · exact hp
      · exact mem_takeWhile h'
    · rw [List.takeWhile_cons_of_neg hp] at h
      cases h

lemma take_len_append_cons {α} : ∀ (l₁ : List α) (c : α) (l₂ : List α),
    (l₁ ++ c :: l₂).take (l₁.length + 1) = l₁ ++ [c]
  | [], c, l₂ => rfl
  | a :: l₁, c, l₂ => by
    simpa using take_len_append_cons l₁ c l₂

lemma tryRuleName_spec {b : Bool} {s run : List Char} {n : Nat}
    (h : tryRuleName b s = some (run, n)) :
    n = run.length ∧ run ≠ [] ∧ ∃ t, s = run ++ ':' :: t := by
  unfold tryRuleName at h
  split at h
  · by_cases he : (s.takeWhile isWordChar).isEmpty
    · simp [he] at h
    · rw [if_neg he] at h
      by_cases hc : (s.drop (s.takeWhile isWordChar).length).head? = some ':'
      · rw [if_pos hc] at h
        simp only [Option.some.injEq, Prod.mk.injEq] at h
        obtain ⟨rfl, rfl⟩ := h
        refine ⟨rfl, by simpa [List.isEmpty_iff] using he, ?_⟩
        rw [takeWhile_drop] at hc
        rcases hd : s.dropWhile isWordChar with _ | ⟨c, t⟩
        · rw [hd] at hc; cases hc
        · rw [hd] at hc
          simp only [List.head?_cons, Option.some.injEq] at hc
          subst hc
          exact ⟨t, by rw [← hd, List.takeWhile_append_dropWhile]⟩
      · rw [if_neg hc] at h; cases h
  · cases h

lemma tryRuleRef_spec {s sp : List Char} {n : Nat}
    (h : tryRuleRef s = some (sp, n)) :
    ∃ run t, s = '\x60' :: (run ++ '\x60' :: t) ∧
      sp = '\x60' :: (run ++ ['\x60']) ∧ n = run.length + 2 := by
  rcases s with _ | ⟨c, rest⟩
  · cases h
  · simp only [tryRuleRef] at h
    by_cases hcq : c = '\x60'
    · rw [if_pos hcq] at h
      subst hcq
      set run := rest.takeWhile (fun x => !pyIsSpace x && x != '\x60') with hrun
      by_cases he : run.isEmpty
      · simp [he] at h
      · rw [if_neg he] at h
        by_cases hc : (rest.drop run.length).head? = some '\x60'
        · rw [if_pos hc] at h
          simp only [Option.some.injEq, Prod.mk.injEq] at h
          obtain ⟨rfl, rfl⟩ := h
          refine ⟨run, ?_⟩
          rw [hrun, takeWhile_drop] at hc
          rcases hd : rest.dropWhile (fun x => !pyIsSpace x && x != '\x60') with _ | ⟨c', t⟩
          · rw [hd] at hc; cases hc
          · rw [hd] at hc
            simp only [List.head?_cons, Option.some.injEq] at hc
            subst hc
            exact ⟨t, by rw [← hd, hrun, List.takeWhile_append_dropWhile], rfl, rfl⟩
        · rw [if_neg hc] at h; cases h
    · rw [if_neg hcq] at h; cases h

lemma tryQuoted_spec {q : Char} {s sp : List Char} {n : Nat}
    (h : tryQuoted q s = some (sp, n)) :
    ∃ run t, s = q :: (run ++ q :: t) ∧ sp = q :: (run ++ [q]) ∧
      n = run.length + 2 ∧ q ∉ run := by
  rcases s with _ | ⟨c, rest⟩
  · cases h
  · simp only [tryQuoted] at h
    by_cases hcq : c = q
    · rw [if_pos hcq] at h
      rw [hcq]
      set run := rest.takeWhile (fun x => x != q) with hrun
      by_cases hc : (rest.drop run.length).head? = some q
      · rw [if_pos hc] at h
        simp only [Option.some.injEq, Prod.mk.injEq] at h
        obtain ⟨rfl, rfl⟩ := h
        refine ⟨run, ?_⟩
        rw [hrun, takeWhile_drop] at hc
        rcases hd : rest.dropWhile (fun x => x != q) with _ | ⟨c', t⟩
        · rw [hd] at hc; cases hc
        · rw [hd] at hc
          simp only [List.head?_cons, Option.some.injEq] at hc
          subst hc
          refine ⟨t, by rw [← hd, hrun, List.takeWhile_append_dropWhile], rfl, rfl, ?_⟩
          intro hmem
          have := mem_takeWhile (hrun ▸ hmem)
          simp at this
      · rw [if_neg hc] at h; cases h
    · rw [if_neg hcq] at h; cases h

lemma matchAt_spec {b : Bool} {s : List Char} {gd : GroupDict} {n : Nat}
    (h : matchAt b s = some (gd, n)) :
    1 ≤ n ∧ n ≤ s.length ∧
    ∃ tok, classify gd = Except.ok tok ∧ tokenSpan tok = s.take n ∧
      ∀ p, tok = Token.stringLiteral p → quotedShape p := by
  unfold matchAt at h
  split at h
  next run n0 hrn =>
    simp only [Option.some.injEq, Prod.mk.injEq] at h
    obtain ⟨rfl, rfl⟩ := h
    obtain ⟨rfl, hne, t, rfl⟩ := tryRuleName_spec hrn
    refine ⟨List.length_pos.mpr hne, by simp, .ruleDefinition run, rfl, ?_, ?_⟩
    · exact (List.take_left run (':' :: t)).symm
    · intro p hp; cases hp
  next hrn =>
    split at h
    next sp n0 href =>
      simp only [Option.some.injEq, Prod.mk.injEq] at h
      obtain ⟨rfl, rfl⟩ := h
      obtain ⟨run, t, rfl, rfl, rfl⟩ := tryRuleRef_spec href
      refine ⟨by omega, by simp only [List.length_cons, List.length_append]; omega, .ruleReference _, rfl, ?_, ?_⟩
      · rw [show run.length + 2 = (run.length + 1) + 1 from rfl,
          List.take_succ_cons, take_len_append_cons]
        rfl
      · intro p hp; cases hp
    next href =>
      split at h
      next sp n0 hsq =>
        simp only [Option.some.injEq, Prod.mk.injEq] at h
        obtain ⟨rfl, rfl⟩ := h
        obtain ⟨run, t, rfl, rfl, rfl, hnin⟩ := tryQuoted_spec hsq
        refine ⟨by omega, by simp only [List.length_cons, List.length_append]; omega, .stringLiteral _, rfl, ?_, ?_⟩
        · rw [show run.length + 2 = (run.length + 1) + 1 from rfl,
            List.take_succ_cons, take_len_append_cons]
          rfl
        · intro p hp
          injection hp with hp'
          exact ⟨'\x27', run, Or.inl rfl, hp' ▸ rfl, hnin⟩
      next hsq =>
        split at h
        next sp n0 hdq =>
          simp only [Option.some.injEq, Prod.mk.injEq] at h
          obtain ⟨rfl, rfl⟩ := h
          obtain ⟨run, t, rfl, rfl, rfl, hnin⟩ := tryQuoted_spec hdq
          refine ⟨by omega, by simp only [List.length_cons, List.length_append]; omega, .stringLiteral _, rfl, ?_, ?_⟩
          · rw [show run.length + 2 = (run.length + 1) + 1 from rfl,
              List.take_succ_cons, take_len_append_cons]
            rfl
          · intro p hp
            injection hp with hp'
            exact ⟨'\x22', run, Or.inr rfl, hp' ▸ rfl, hnin⟩
        next => cases h

lemma concatSpans_cons (t : Token) (ts : List Token) :
    concatSpans (t :: ts) = tokenSpan t ++ concatSpans ts := rfl

lemma scanAux_succ_nomatch {fuel : Nat} {atStart : Bool} {c : Char}
    {rest gapRev : List Char}
    (hm : matchAt atStart (c :: rest) = none) :
    scanAux (fuel + 1) atStart (c :: rest) gapRev =
      scanAux fuel false rest (c :: gapRev) := by
  conv_lhs => rw [scanAux]
  rw [hm]

lemma scanAux_succ_match {fuel : Nat} {atStart : Bool} {c : Char}
    {rest gapRev : List Char} {gd : GroupDict} {n : Nat}
    (hm : matchAt atStart (c :: rest) = some (gd, n)) :
    scanAux (fuel + 1) atStart (c :: rest) gapRev =
      match classify gd with
      | .error e => .error e
      | .ok tok =>
        match scanAux fuel false ((c :: rest).drop n) [] with
        | .error e => .error e
        | .ok ts =>
          if gapRev = [] then .ok (tok :: ts)
          else .ok (.plainText gapRev.reverse :: tok :: ts) := by
  conv_lhs => rw [scanAux]
  rw [hm]

lemma scanAux_spec (fuel : Nat) :
    ∀ (s : List Char) (atStart : Bool) (gapRev : List Char),
    s.length < fuel →
    ∃ ts, scanAux fuel atStart s gapRev = .ok ts ∧
      concatSpans ts = gapRev.reverse ++ (s ++ ['\n']) ∧
      (∃ pre g, ts = pre ++ [Token.plainText (g ++ ['\n'])]) ∧
      (∀ p, Token.stringLiteral p ∈ ts → quotedShape p) := by
  induction fuel with
  | zero => intro s _ _ hlt; omega
  | succ fuel ih =>
    intro s atStart gapRev hlt
    cases s with
    | nil =>
      refine ⟨[.plainText (gapRev.reverse ++ ['\n'])], rfl, ?_,
        ⟨[], gapRev.reverse, rfl⟩, ?_⟩
      · simp [concatSpans, tokenSpan]
      · intro p hp; simp at hp
    | cons c rest =>
      cases hm : matchAt atStart (c :: rest) with
      | none =>
        obtain ⟨ts, h1, h2, h3, h4⟩ :=
          ih rest false (c :: gapRev) (by simp at hlt; omega)
        refine ⟨ts, ?_, ?_, h3, h4⟩
        · rw [scanAux_succ_nomatch hm]; exact h1
        · rw [h2]; simp
      | some v =>
        obtain ⟨gd, n⟩ := v
        obtain ⟨hn1, hn2, tok, hcl, hspan, hlit⟩ := matchAt_spec hm
        obtain ⟨ts, h1, h2, h3, h4⟩ :=
          ih ((c :: rest).drop n) false []
            (by rw [List.length_drop]; simp at hlt ⊢; omega)
        have hmem : ∀ p, Token.stringLiteral p ∈ tok :: ts → quotedShape p := by
          intro p hp
          rcases List.mem_cons.mp hp with hp1 | hp1
          · exact hlit p hp1.symm
          · exact h4 p hp1
        have hcc : concatSpans (tok :: ts) = (c :: rest) ++ ['\n'] := by
          rw [concatSpans_cons, hspan, h2]
          simp [← List.append_assoc]
        by_cases hg : gapRev = []
        · subst hg
          obtain ⟨pre, g, rfl⟩ := h3
          refine ⟨tok :: (pre ++ [Token.plainText (g ++ ['\n'])]), ?_, ?_,
            ⟨tok :: pre, g, by simp⟩, hmem⟩
          · rw [scanAux_succ_match hm, hcl, h1]; rfl
          · rw [hcc]; simp
        · obtain ⟨pre, g, rfl⟩ := h3
          refine ⟨.plainText gapRev.reverse :: tok ::
              (pre ++ [Token.plainText (g ++ ['\n'])]), ?_, ?_,
            ⟨.plainText gapRev.reverse :: tok :: pre, g, by simp⟩, ?_⟩
          · rw [scanAux_succ_match hm, hcl, h1]
            simp [hg]
          · rw [concatSpans_cons, hcc]
            simp [tokenSpan]
          · intro p hp
            rcases List.mem_cons.mp hp with hp1 | hp1
            · cases hp1
            · exact hmem p hp1

lemma register_countP (reg : Registry) (g n : List Char) :
    ((register reg g n).1.countP (fun e => decide (e.1 = (g, n)))) = 1 := by
  unfold register
  rw [List.countP_cons]
  have hz : ((reg.filter (fun e => decide (e.1 ≠ (g, n)))).countP
      (fun e => decide (e.1 = (g, n)))) = 0 := by
    rw [List.countP_eq_zero]
    intro a ha
    have := List.of_mem_filter ha
    simp at this ⊢
    exact this
  simp [hz]

lemma maxColonIndex_none {ls : List (List Char)} {l : List Char}
    (hl : l ∈ ls) (hc : colonIndex l = none) : maxColonIndex ls = none := by
  induction ls with
  | nil => cases hl
  | cons x xs ih =>
    rcases xs with _ | ⟨y, ys⟩
    · rcases List.mem_singleton.mp hl with rfl
      simpa [maxColonIndex] using hc
    · rcases List.mem_cons.mp hl with rfl | hl'
      · simp [maxColonIndex, hc]
      · rw [show maxColonIndex (x :: y :: ys) =
            (match colonIndex x, maxColonIndex (y :: ys) with
             | some i, some m => some (Nat.max i m)
             | _, _ => none) from rfl]
        rw [ih hl']
        cases colonIndex x <;> rfl

/--
C1: For every input line, concatenating in order the literal spans of every
token emitted by the tokenizer (PlainText spans contribute their literal
text; RuleDefinition, RuleReference and StringLiteral spans contribute their
payload plus the delimiter characters originally consumed for them, which is
exactly `tokenSpan`) reconstructs the original line content followed by the
one newline appended to the line's final PlainText span.
-/
theorem c1_tokenizer_coverage (line : List Char) :
    ∃ ts, tokenizeE line = Except.ok ts ∧
      concatSpans ts = line ++ ['\n'] ∧
      ∃ pre g, ts = pre ++ [Token.plainText (g ++ ['\n'])] := by
  obtain ⟨ts, h1, h2, h3, _⟩ := scanAux_spec (line.length + 1) line true [] (by omega)
  exact ⟨ts, h1, by simpa using h2, h3⟩

/--
C2, counterexample: the claim says a StringLiteral token's payload is the
contents between the quotes with the quote characters excluded.  On the line
`'a'` the code passes the full regex group, quotes included, to
`snippet_string_node`: the emitted payload is `'a'`, not `a`.
-/
theorem c2_counterexample_payload_keeps_quotes :
    tokenizeE ("\x27a\x27".data) =
      Except.ok [Token.stringLiteral "\x27a\x27".data, Token.plainText "\n".data] ∧
    "\x27a\x27".data ≠ "a".data :=
  ⟨rfl, by decide⟩

/--
C2, amended: every StringLiteral token produced from a single-quote- or
double-quote-delimited span has as payload the full matched span: the opening
quote, the contents (which can never contain the quote character, since no
escape sequences are interpreted), and the closing quote.  The quotes are
consumed by the scanner and included in the payload, not stripped from it.
-/
theorem c2_amended_string_literal_shape (line : List Char) (ts : List Token)
    (p : List Char) (hok : tokenizeE line = Except.ok ts)
    (hmem : Token.stringLiteral p ∈ ts) : quotedShape p := by
  obtain ⟨ts', h1, _, _, h4⟩ := scanAux_spec (line.length + 1) line true [] (by omega)
  rw [tokenizeE, h1] at hok
  simp only [Except.ok.injEq] at hok
  subst hok
  exact h4 p hmem

/-- Witness for the amended C2 theorem at the concrete line `'a'`. -/
theorem c2_amended_string_literal_shape_witness :
    tokenizeE ("\x27a\x27".data) =
      Except.ok [Token.stringLiteral "\x27a\x27".data, Token.plainText "\n".data] ∧
    Token.stringLiteral ("\x27a\x27".data) ∈
      [Token.stringLiteral "\x27a\x27".data, Token.plainText "\n".data] ∧
    quotedShape ("\x27a\x27".data) :=
  ⟨rfl, by decide,
    c2_amended_string_literal_shape ("\x27a\x27".data)
      [Token.stringLiteral "\x27a\x27".data, Token.plainText "\n".data]
      ("\x27a\x27".data) rfl (by decide)⟩

/--
C3: Tokenizing the line `x: 'literal' | "lit2"` yields exactly two
StringLiteral tokens whose payloads are `'literal'` and `"lit2"` verbatim,
quote characters included, interleaved with PlainText tokens and with a
leading RuleDefinition token for `x`.
-/
theorem c3_quoted_literal_line :
    tokenizeE ("x: \x27literal\x27 | \x22lit2\x22".data) =
      Except.ok [Token.ruleDefinition "x".data, Token.plainText ": ".data,
        Token.stringLiteral "\x27literal\x27".data, Token.plainText " | ".data,
        Token.stringLiteral "\x22lit2\x22".data, Token.plainText "\n".data] := rfl

/--
C4: Registration is idempotent for an identical `(group, name)` pair:
registering the same pair twice returns the same id both times, and
afterwards the registry holds exactly one live TargetEntry for that key.
(The registrar is modelled from the spec, §4.2: Sphinx's `make_id` and
`note_object` are not part of this repository's sources.)
-/
theorem c4_registrar_idempotent (reg : Registry) (g n : List Char) :
    (register (register reg g n).1 g n).2 = (register reg g n).2 ∧
    ((register (register reg g n).1 g n).1.countP
      (fun e => decide (e.1 = (g, n)))) = 1 :=
  ⟨rfl, register_countP _ g n⟩

/--
C5: If any non-header line of a legacy-format block contains no colon, the
adapter fails with the malformed-input `ValueError` raised by
`line.index(':')` during the alignment computation, before any tokenization
or registration, so the registry is left unchanged.
-/
theorem c5_malformed_legacy_fails (reg : Registry) (arg l : List Char)
    (hl : l ∈ (splitlines arg).drop 1) (hc : colonIndex l = none) :
    compatRun reg arg = Except.error PipelineError.valueError ∧
    registryAfterCompat reg arg = reg := by
  have hrun : compatRun reg arg = Except.error PipelineError.valueError := by
    rcases hs : splitlines arg with _ | ⟨l0, rest⟩
    · rw [hs] at hl; cases hl
    · rw [hs] at hl
      simp only [List.drop_succ_cons, List.drop_zero] at hl
      simp only [compatRun, hs]
      rw [maxColonIndex_none hl hc]
  exact ⟨hrun, by unfold registryAfterCompat; rw [hrun]⟩

/-- Witness for C5 at the concrete block `g\nbad`. -/
theorem c5_malformed_legacy_fails_witness :
    ("bad".data ∈ (splitlines ("g\nbad".data)).drop 1) ∧
    colonIndex ("bad".data) = none ∧
    (compatRun [] ("g\nbad".data) = Except.error PipelineError.valueError ∧
     registryAfterCompat [] ("g\nbad".data) = []) :=
  ⟨by decide, by decide,
    c5_malformed_legacy_fails [] ("g\nbad".data) ("bad".data) (by decide) (by decide)⟩

/--
C6: For the legacy block `g\nfoo:  bar\nlongname: baz`, the adapter takes
line 0 (stripped) as the group, computes the alignment column as one plus the
maximum first-colon index of the remaining lines (here 9), re-emits each
remaining line as the stripped rule name plus a colon left-justified to that
column followed by the definition text, and forwards the two normalized lines
to the tokenizer, registering both rules under group `g`.
-/
theorem c6_legacy_round_trip :
    compatRun [] ("g\nfoo:  bar\nlongname: baz".data) =
      Except.ok
        ([(("g".data, "longname".data),
            ⟨"g".data, "longname".data, "grammar-token-g-longname".data⟩),
          (("g".data, "foo".data),
            ⟨"g".data, "foo".data, "grammar-token-g-foo".data⟩)],
         [[Token.ruleDefinition "foo".data, Token.plainText ":       bar\n".data],
          [Token.ruleDefinition "longname".data, Token.plainText ": baz\n".data]]) := rfl

/--
C7: Tokenizing the line `foo: bar` yields exactly one RuleDefinition token
with payload `foo`, anchored at the start of the line, followed by a single
PlainText token `: bar\n`: the colon is not consumed by the RuleDefinition
match (it is only a lookahead) and remains in the following PlainText.
-/
theorem c7_rule_definition_line :
    tokenizeE ("foo: bar".data) =
      Except.ok [Token.ruleDefinition "foo".data,
        Token.plainText (": bar\n").data] := rfl

/--
C8, counterexample: the claim says an empty production group surfaces a
ConfigurationError before any tokenization for the legacy entry point too.
On the legacy block `\nfoo: bar` (empty header line, so the group is the
empty string) `CompatProductionList.run` performs no emptiness check: the
block is tokenized and `foo` is registered under the empty group.
-/
theorem c8_counterexample_legacy_empty_group :
    compatRun [] ("\nfoo: bar".data) =
      Except.ok
        ([(([], "foo".data), ⟨[], "foo".data, "grammar-token--foo".data⟩)],
         [[Token.ruleDefinition "foo".data, Token.plainText (": bar\n").data]]) := rfl

/--
C8, amended: for the primary entry point a missing `group` option raises a
`KeyError` (from `options['group']`) before any tokenization; the legacy
entry point performs no group emptiness check, and a block whose header line
is empty proceeds to tokenize and register under the empty group.
-/
theorem c8_amended_group_handling :
    (∀ (reg : Registry) (content : List (List Char)),
      makeGrammarSnippet reg none content = Except.error PipelineError.keyErrorGroup) ∧
    compatRun [] ("\nfoo: bar".data) =
      Except.ok
        ([(([], "foo".data), ⟨[], "foo".data, "grammar-token--foo".data⟩)],
         [[Token.ruleDefinition "foo".data, Token.plainText (": bar\n").data]]) :=
  ⟨fun _ _ => rfl, rfl⟩

/--
C9: A scanned span satisfying none of the four token classifications makes
`make_production` raise `ValueError('unhandled match')` rather than silently
dropping text (first conjunct: the `case _` branch of the dispatch), and the
four alternatives of `grammar_re` are exhaustive over its matches, so this
error branch is unreachable: tokenization succeeds for every input line
(second conjunct).
-/
theorem c9_unhandled_match_unreachable (line : List Char) :
    classify ⟨none, none, none, none⟩ = Except.error PipelineError.unhandledMatch ∧
    ∃ ts, tokenizeE line = Except.ok ts := by
  obtain ⟨ts, h1, _⟩ := scanAux_spec (line.length + 1) line true [] (by omega)
  exact ⟨rfl, ts, h1⟩

/--
C10: A legacy-format block consisting of only the header (group) line makes
the adapter raise a `ValueError` (from `max()` over the empty sequence of
colon indices) before tokenizing or registering anything, even though no
non-header line lacks a colon.
-/
theorem c10_header_only_legacy_fails (reg : Registry) (arg l0 : List Char)
    (h : splitlines arg = [l0]) :
    compatRun reg arg = Except.error PipelineError.valueError ∧
    registryAfterCompat reg arg = reg := by
  have hrun : compatRun reg arg = Except.error PipelineError.valueError := by
    simp only [compatRun, h]
    rfl
  exact ⟨hrun, by unfold registryAfterCompat; rw [hrun]⟩

/-- Witness for C10 at the concrete block `g`. -/
theorem c10_header_only_legacy_fails_witness :
    splitlines ("g".data) = ["g".data] ∧
    (compatRun [] ("g".data) = Except.error PipelineError.valueError ∧
     registryAfterCompat [] ("g".data) = []) :=
  ⟨by decide, c10_header_only_legacy_fails [] ("g".data) ("g".data) (by decide)⟩
